import Mathlib

/-!
Verification of the SquidTasks cooperative task library.

This file shallowly embeds the core runtime of the SquidTasks library
(include/Task.h, include/TaskManager.h and the internal implementation
header TaskPrivate.h) and proves or refutes the frozen claims about it.

Modelling conventions:
* `tTaskTime` (float/double in the source) is modelled as `Rat`: the claims
  are about the comparison/subtraction algebra of time values, not about
  floating-point rounding.
* A coroutine frame is opaque to the runtime (`std::coroutine_handle`):
  it is modelled as `Option Nat`, the number of resume steps left until
  the frame completes (`some 0` = frame at its final suspend point,
  i.e. `coro_handle.done()`), with `none` meaning the frame was destroyed.
* `SQUID_RUNTIME_CHECK` failures (contract violations) are modelled with
  `Except String`.
-/

namespace SquidTasks

/-- Status of a task, from `eTaskStatus` in Task.h. -/
inductive eTaskStatus where
  | Suspended
  | Done
deriving DecidableEq, Repr

/-! ## FSM link wiring (TaskFSM::StateLinks, Task.h lines 1405-1430)

A `LinkHandle` records, for the purposes of `StateLinks` validation, whether
it is an OnComplete link (`IsOnCompleteLink()`) and whether it carries a
condition (`HasCondition()`, set only by the predicate-taking
`OnCompleteLink` overloads). -/

structure FSMLink where
  isOnComplete : Bool
  hasCondition : Bool
deriving DecidableEq, Repr

/-- The counting loop of `TaskFSM::StateLinks`: walks the outgoing-link list
accumulating the number of OnComplete links and the number of unconditional
OnComplete links; raises the in-loop contract violation when an OnComplete
link is encountered after an unconditional OnComplete link was counted. -/
def stateLinksLoop : List FSMLink → Nat → Nat → Except String (Nat × Nat)
  | [], numOC, numOCUncond => .ok (numOC, numOCUncond)
  | link :: rest, numOC, numOCUncond =>
    if link.isOnComplete then
      if numOCUncond ≠ 0 then
        .error "Cannot call OnCompleteLink() after calling OnCompleteLink() with no conditions (unreachable link)"
      else
        stateLinksLoop rest (numOC + 1) (if !link.hasCondition then numOCUncond + 1 else numOCUncond)
    else
      stateLinksLoop rest numOC numOCUncond

/-- Model of `TaskFSM::StateLinks` (Task.h 1405-1430). `alreadyDeclared` models
`m_states[stateIdx].outgoingLinks.size() != 0` (the link list of the state
was declared before). Returns `.ok` when the links are accepted, `.error` with
the corresponding `SQUID_RUNTIME_CHECK` message otherwise. -/
def stateLinks (alreadyDeclared : Bool) (links : List FSMLink) : Except String Unit :=
  if alreadyDeclared then
    .error "Cannot set outgoing links more than once for each state"
  else
    match stateLinksLoop links 0 0 with
    | .error e => .error e
    | .ok (numOC, numOCUncond) =>
      if numOC = 0 ∨ numOCUncond > 0 then .ok ()
      else .error "More than one unconditional OnCompleteLink() was set"

/-- The acceptance condition claimed by the spec: the list was not declared
before, at most one OnComplete link is unconditional, and no OnComplete link
follows an unconditional OnComplete link. -/
def stateLinksClaimAccepts (alreadyDeclared : Bool) (links : List FSMLink) : Prop :=
  alreadyDeclared = false ∧
  (links.filter (fun l => l.isOnComplete && !l.hasCondition)).length ≤ 1 ∧
  (∀ i j : Fin links.length, i < j →
    (links.get i).isOnComplete = true → (links.get i).hasCondition = false →
    (links.get j).isOnComplete = false)

instance (b : Bool) (ls : List FSMLink) : Decidable (stateLinksClaimAccepts b ls) := by
  unfold stateLinksClaimAccepts
  infer_instance

/-! ## Return-value slot (TaskInternal<tRet>, TaskPrivate.h lines 823-858)

The slot of a non-void task is a state in `{Unset, Set, Taken, Orphaned}`
together with the stored value (`m_retVal`, an optional). -/

/-- The enum `eTaskRetValState` from TaskPrivate.h. -/
inductive eTaskRetValState where
  | Unset
  | Set
  | Taken
  | Orphaned
deriving DecidableEq, Repr

/-- Model of `TaskInternal<tRet>::TakeReturnValue` (TaskPrivate.h 823-836): on `Set`,
marks the slot `Taken` and moves the value out; on `Taken` or `Orphaned`,
raises the corresponding contract violation; on `Unset`, returns an empty
optional and leaves the slot untouched. Result is the taken value together
with the new slot. -/
def TakeReturnValue {α : Type} (slot : eTaskRetValState × Option α) :
    Except String (Option α × (eTaskRetValState × Option α)) :=
  match slot with
  | (.Set, v) => .ok (v, (.Taken, none))
  | (.Taken, _v) => .error "Attempted to take a task return value after it was already successfully taken"
  | (.Orphaned, _v) => .error "Attempted to take a task return value that will never be set (task ended prematurely)"
  | (.Unset, v) => .ok (none, (.Unset, v))

/-- Model of `Task::TakeReturnValue` (Task.h 304-308): checks `IsValid()` and raises a
contract violation on an invalid handle, otherwise delegates to the internal
slot. The handle is modelled as `Option` of the slot it references. -/
def handleTakeReturnValue {α : Type} (h : Option (eTaskRetValState × Option α)) :
    Except String (Option α × (eTaskRetValState × Option α)) :=
  match h with
  | none => .error "Tried to retrieve return value from an invalid handle"
  | some slot => TakeReturnValue slot

/-! ## Task cell runtime (TaskInternalBase, TaskPrivate.h lines 512-782)

A task cell holds the internal state, the done flag, the stop-requested
flag, an optional owned sub-task cell, an optional readiness predicate
(`m_taskReadyFn`, a `std::function<bool()>` modelled as a function of the
current time), the opaque coroutine frame, the return-value slot state and
the logical strong-reference count.  The stop-propagation list
(`m_stopTasks`, a list of weak pointers into the heap) is modelled
separately by the store-based model further below. -/

/-- The enum `eInternalState` from TaskPrivate.h. -/
inductive eInternalState where
  | Idle
  | Resuming
  | Destroyed
deriving DecidableEq, Repr

/-- A task cell (`TaskInternalBase` + the return slot of `TaskInternal`). -/
inductive Cell : Type where
  | mk (istate : eInternalState) (isDone : Bool) (isStopRequested : Bool)
       (sub : Option Cell) (readyFn : Option (Rat → Bool)) (frame : Option Nat)
       (ret : eTaskRetValState) (refCount : Int) : Cell

def Cell.istate : Cell → eInternalState
  | .mk s _ _ _ _ _ _ _ => s

def Cell.isDone : Cell → Bool
  | .mk _ d _ _ _ _ _ _ => d

def Cell.isStopRequested : Cell → Bool
  | .mk _ _ st _ _ _ _ _ => st

def Cell.sub : Cell → Option Cell
  | .mk _ _ _ sb _ _ _ _ => sb

def Cell.readyFn : Cell → Option (Rat → Bool)
  | .mk _ _ _ _ r _ _ _ => r

def Cell.frame : Cell → Option Nat
  | .mk _ _ _ _ _ f _ _ => f

def Cell.ret : Cell → eTaskRetValState
  | .mk _ _ _ _ _ _ rt _ => rt

def Cell.refCount : Cell → Int
  | .mk _ _ _ _ _ _ _ rc => rc

/-- Setting `m_isStopRequested = true` (the direct field write used for sub-task
stop propagation in `Resume`, TaskPrivate.h 591-594, and the first line of
`RequestStop`, TaskPrivate.h 535). -/
def Cell.setStop : Cell → Cell
  | .mk s d _ sb r f rt rc => .mk s d true sb r f rt rc

/-- Model of `TaskInternalBase::CanResume` (TaskPrivate.h 714-727): false when done;
deferred to the sub-task when one is attached; otherwise ready iff there is
no readiness predicate or the predicate returns true. -/
def Cell.CanResume : Cell → Rat → Bool
  | .mk _ d _ sb r _ _ _, t =>
    if d then false
    else
      match sb with
      | some sc => sc.CanResume t
      | none =>
        match r with
        | none => true
        | some f => f t

/-- The tail of `TaskInternalBase::Resume` (TaskPrivate.h 607-621), reached
after the sub-task block: if `CanResume()`, clear the ready function and
step the coroutine frame (a completing step also runs `return_value`, which
moves the slot from Unset to Set); then report Done exactly when
`m_coroHandle.done()`, setting the done flag in that case, and return to
the Idle state. -/
def Cell.resumeFrame : Cell → Rat → Except String (Cell × eTaskStatus)
  | .mk _ d st sb r f rt rc, t =>
    if (Cell.mk .Idle d st sb r f rt rc).CanResume t then
      match f with
      | some (n + 1) =>
        let rt' := if n = 0 ∧ rt = .Unset then .Set else rt
        .ok (.mk .Idle (if n = 0 then true else d) st sb none (some n) rt' rc,
             if n = 0 then .Done else .Suspended)
      | some 0 => .error "resumed a coroutine frame already at its final suspend point"
      | none => .error "resumed a destroyed coroutine frame"
    else
      match f with
      | some 0 => .ok (.mk .Idle true st sb r f rt rc, .Done)
      | some (_ + 1) => .ok (.mk .Idle d st sb r f rt rc, .Suspended)
      | none => .error "queried a destroyed coroutine frame"

theorem Cell.sizeOf_setStop (c : Cell) : sizeOf c.setStop = sizeOf c := by
  cases c <;> simp [Cell.setStop]

/-- Model of `TaskInternalBase::Resume` (TaskPrivate.h 573-622).  Raises the
re-entrancy contract violation when already Resuming; returns Done without
touching the frame when Destroyed; otherwise (transiently Resuming) first
propagates the stop flag into an attached sub-task and resumes it
recursively, returning Suspended (back at Idle) if the sub-task is not
Done, clearing the sub-task pointer otherwise; finally falls through to
`resumeFrame`. -/
def Cell.Resume : Cell → Rat → Except String (Cell × eTaskStatus)
  | .mk istate d st sb r f rt rc, t =>
    if istate = .Resuming then
      .error "Attempted to resume Task while already resumed"
    else if istate = .Destroyed then
      .ok (.mk istate d st sb r f rt rc, .Done)
    else
      match sb with
      | some sc =>
        match (if st then sc.setStop else sc).Resume t with
        | .error e => .error e
        | .ok (sc', status) =>
          if status ≠ .Done then
            .ok (.mk .Idle d st (some sc') r f rt rc, .Suspended)
          else
            (Cell.mk .Idle d st none r f rt rc).resumeFrame t
      | none => (Cell.mk .Idle d st none r f rt rc).resumeFrame t
termination_by c _ => sizeOf c
decreasing_by
  split <;> simp [Cell.sizeOf_setStop] <;> omega

/-- Model of `TaskInternalBase::Kill` (TaskPrivate.h 687-707): a no-op unless the
state is Idle; raises a contract violation while Resuming; otherwise marks
the cell done, kills the attached sub-task first, destroys the coroutine
frame (destroying the promise runs `OnTaskPromiseDestroyed`, which orphans
a still-Unset return slot, TaskPrivate.h 837-844), clears the ready
function and transitions to Destroyed. -/
def Cell.Kill : Cell → Except String Cell
  | .mk istate d st sb r f rt rc =>
    if istate = .Resuming then
      .error "Attempted to kill Task while resumed"
    else if istate = .Idle then
      match sb with
      | some sc =>
        match sc.Kill with
        | .error e => .error e
        | .ok sc' =>
          .ok (.mk .Destroyed true st (some sc') none none
               (if rt = .Unset then .Orphaned else rt) rc)
      | none =>
        .ok (.mk .Destroyed true st none none none
             (if rt = .Unset then .Orphaned else rt) rc)
    else
      .ok (.mk istate d st sb r f rt rc)

/-- Decidable "no cell in the sub-task chain is mid-resume" (the condition
under which `Kill` cannot hit its re-entrancy contract violation). -/
def Cell.killable : Cell → Bool
  | .mk istate _ _ sb _ _ _ _ =>
    istate ≠ .Resuming &&
      (match sb with
       | none => true
       | some sc => sc.killable)

/-- Model of `TaskInternalBase::RemoveLogicalRef` (TaskPrivate.h 760-767):
decrement the strong-reference count and kill the cell when it reaches
zero. -/
def Cell.RemoveLogicalRef : Cell → Except String Cell
  | .mk istate d st sb r f rt rc =>
    if rc - 1 = 0 then (Cell.mk istate d st sb r f rt (rc - 1)).Kill
    else .ok (.mk istate d st sb r f rt (rc - 1))

/-! ## Handle layer (class Task, Task.h lines 202-570)

A handle is `m_taskInternal`, a possibly-null pointer to a cell, plus the
two compile-time template parameters (reference strength and
resumability), passed explicitly where they matter. -/

/-- Model of `Task::IsValid` (Task.h 273-276). -/
def Task.IsValid (h : Option Cell) : Bool :=
  h.isSome

/-- Model of `Task::IsDone` (Task.h 281-284): an invalid handle reports done. -/
def Task.IsDone : Option Cell → Bool
  | none => true
  | some c => c.isDone

/-- Model of `Task::IsStopRequested` (Task.h 285-288): an invalid handle reports
stop-requested. -/
def Task.IsStopRequested : Option Cell → Bool
  | none => true
  | some c => c.isStopRequested

/-- Model of `Task::Resume` (Task.h 309-313): an invalid handle resumes to Done
without touching any cell. -/
def Task.Resume : Option Cell → Rat → Except String (Option Cell × eTaskStatus)
  | none, _ => .ok (none, .Done)
  | some c, t => (c.Resume t).map fun p => (some p.1, p.2)

/-- Model of `Task::RequestStop` (Task.h 289-295) seen at the level of a single
cell: a no-op on an invalid handle, otherwise sets the stop flag (the
propagation over the stop-task graph is modelled by `requestStop` on the
store below). -/
def Task.RequestStop : Option Cell → Option Cell
  | none => none
  | some c => some c.setStop

/-- Model of `Task::Kill` (Task.h 296-303): a no-op on an invalid handle. -/
def Task.Kill : Option Cell → Except String (Option Cell)
  | none => .ok none
  | some c => c.Kill.map some

/-- Model of `Task::~Task` (Task.h 266-272): `RemoveRef()` (which only acts for
strong handles) followed by `KillIfResumable()` (Task.h 547-553, which
kills the cell when the handle is resumable and valid). Returns the final
state of the referenced cell. -/
def TaskDtor (strong resumable : Bool) : Option Cell → Except String (Option Cell)
  | none => .ok none
  | some c => do
    let c ← if strong then c.RemoveLogicalRef else .ok c
    if resumable then c.Kill.map some else .ok (some c)

/-- Model of `Task::operator=(Task&&)` (Task.h 257-265), restricted to the fate of
the overwritten cell: `KillIfResumable()` on the old target, then
`RemoveRef()`. -/
def TaskMoveAssignOld (strong resumable : Bool) : Option Cell → Except String (Option Cell)
  | none => .ok none
  | some c => do
    let c ← if resumable then c.Kill else .ok c
    if strong then c.RemoveLogicalRef.map some else .ok (some c)

/-! ## Stop-request propagation (TaskInternalBase::RequestStop, TaskPrivate.h 533-544)

The stop-propagation list `m_stopTasks` is a vector of weak pointers into
the heap of cells.  That heap is modelled as a list of records indexed by
position; `alive` models whether the weak pointer still locks
(`stopTask.lock()` succeeds), and `stopList` holds the indices of the
cells in the propagation list. -/

structure SCell where
  alive : Bool
  stopRequested : Bool
  stopList : List Nat
deriving DecidableEq, Repr

/-- Model of `TaskInternalBase::RequestStop` on the cell at index `i` of the store:
sets the stop flag of the cell, calls `RequestStop` on every cell of its
stop-propagation list whose weak pointer still locks, then clears the
list.  `fuel` bounds the recursion depth (the source recursion terminates
because the propagation graph is used acyclically); with fuel 0 the call
does nothing. -/
def sRequestStop : Nat → List SCell → Nat → List SCell
  | 0, s, _ => s
  | fuel + 1, s, i =>
    match s[i]? with
    | none => s
    | some c =>
      let s1 := s.set i { c with stopRequested := true }
      let s2 := c.stopList.foldl
        (fun acc j =>
          match acc[j]? with
          | some cj => if cj.alive then sRequestStop fuel acc j else acc
          | none => acc) s1
      match s2[i]? with
      | some c2 => s2.set i { c2 with stopList := [] }
      | none => s2

/-! ## Task manager (TaskManager.h)

`TaskManager::Update` (TaskManager.h 171-192) walks `m_tasks` by index,
re-reading `m_tasks.size()` on every iteration, resuming each entry and
compacting out the Done ones in place with a write index, finally
resizing to the write index.  `Run`, `RunManaged` and `RunWeakTask`
(TaskManager.h 96-137) all enqueue by `m_tasks.push_back`, so a task
enqueued from inside a resumed task body is appended at the tail of the
very vector the update loop is iterating.

A roster entry is modelled as a scripted task: each resume consumes one
script entry, reporting Done when the entry says so and pushing the tasks
the body ran on the manager during that resume. -/

inductive SimTask : Type where
  | mk (id : Nat) (script : List (Bool × List SimTask)) : SimTask

def SimTask.id : SimTask → Nat
  | .mk i _ => i

/-- One `Task::Resume` of a scripted roster entry: returns the stepped
task, its status (a task with an exhausted script stays Done), and the
tasks it enqueued on the manager during this resume. -/
def SimTask.resume : SimTask → SimTask × eTaskStatus × List SimTask
  | .mk i [] => (.mk i [], .Done, [])
  | .mk i ((doneNow, spawned) :: rest) =>
    (.mk i rest, if doneNow then .Done else .Suspended, spawned)

/-- The body of `TaskManager::Update` (TaskManager.h 173-186): the index
loop with live re-evaluation of the vector size, in-place compaction of
survivors and the final resize.  `fuel` bounds the number of iterations
(the C++ loop is unbounded); the returned trace lists the ids of the
entries resumed, in order. -/
def updateGo (fuel : Nat) (tasks : List SimTask) (readIdx writeIdx : Nat)
    (trace : List Nat) : List SimTask × List Nat :=
  match fuel with
  | 0 => (tasks.take writeIdx, trace)
  | fuel + 1 =>
    match tasks.get? readIdx with
    | none => (tasks.take writeIdx, trace)
    | some t =>
      let (t', status, spawned) := t.resume
      let tasks1 := (tasks.set readIdx t') ++ spawned
      let trace1 := trace ++ [t.id]
      if status = .Done then
        updateGo fuel tasks1 (readIdx + 1) writeIdx trace1
      else
        let tasks2 := if writeIdx ≠ readIdx then tasks1.set writeIdx t' else tasks1
        updateGo fuel tasks2 (readIdx + 1) (writeIdx + 1) trace1

/-- Model of `TaskManager::Update` on a roster. -/
def update (fuel : Nat) (tasks : List SimTask) : List SimTask × List Nat :=
  updateGo fuel tasks 0 0 []

/-- Reference formulation of one update pass as queue processing:
repeatedly pop the front of the pending queue, resume it, append whatever
it enqueued at the tail of the queue, and keep the survivors in order.
`update` is proved equal to this below. -/
def queueGo (fuel : Nat) (survivors pending : List SimTask) (trace : List Nat) :
    List SimTask × List Nat :=
  match fuel with
  | 0 => (survivors, trace)
  | fuel + 1 =>
    match pending with
    | [] => (survivors, trace)
    | t :: rest =>
      let (t', status, spawned) := t.resume
      let trace1 := trace ++ [t.id]
      if status = .Done then
        queueGo fuel survivors (rest ++ spawned) trace1
      else
        queueGo fuel (survivors ++ [t']) (rest ++ spawned) trace1

/-! ## Timed waits and cancellation wrappers (Task.h 849-973)

Time (`tTaskTime`) is `Rat`; a time-stream function applied during a
resume is modelled by passing the current clock value of that resume. -/

/-- State of a `WaitSeconds` coroutine (Task.h 849-860): the body runs
lazily (the initial suspend of a task always suspends, TaskPrivate.h
342-345), so `startTime` is sampled by the first resume; afterwards the
frame is parked on the readiness predicate `GetTimeSince(startTime) >=
in_seconds`. -/
inductive WSState where
  | NotStarted
  | Waiting (t0 : Rat)
  | Finished
deriving DecidableEq, Repr

/-- One resume of `WaitSeconds(δ, timeFn)` at clock value `t`: the first
resume samples `startTime := timeFn()` and immediately evaluates the
awaited predicate (`await_transform` of a ready functor, TaskPrivate.h
437-446, runs the functor before deciding whether to suspend); when the
predicate holds the frame runs to `co_return timeFn() - startTime -
in_seconds`, producing the overshoot and Done status in that same
resume. -/
def WaitSecondsResume (δ : Rat) : WSState → Rat → WSState × eTaskStatus × Option Rat
  | .NotStarted, t =>
    if t - t ≥ δ then (.Finished, .Done, some (t - t - δ))
    else (.Waiting t, .Suspended, none)
  | .Waiting t0, t =>
    if t - t0 ≥ δ then (.Finished, .Done, some (t - t0 - δ))
    else (.Waiting t0, .Suspended, none)
  | .Finished, _ => (.Finished, .Done, none)

/-- Resume a `WaitSeconds` task once per clock value of the trace,
collecting the statuses and the returned overshoot (if it completed). -/
def WaitSecondsRun (δ : Rat) (s : WSState) :
    List Rat → List eTaskStatus × WSState × Option Rat
  | [] => ([], s, none)
  | t :: ts =>
    match WaitSecondsResume δ s t with
    | (s', st, v) =>
      match WaitSecondsRun δ s' ts with
      | (sts, sf, vrest) => (st :: sts, sf, v.or vrest)

/-- State of a `CancelIfImpl<tRet>` wrapper (Task.h 925-946) over an
abstract child: either still driving the child, or finished with the
returned optional and a record of whether the child was killed before
completing (on cancellation the owned `in_task` handle is destroyed when
the wrapper frame is torn down, which kills the child cell). -/
inductive CancelState (σ α : Type) where
  | Running (child : σ)
  | Finished (result : Option α) (childKilled : Bool)

/-- One resume of `CancelIfImpl<tRet>`: each resume runs one loop
iteration, checking `in_cancelFn()` before stepping the child; on a true
condition it returns an empty optional (killing the child), otherwise it
resumes the child once and, when the child is Done, returns
`in_task.TakeReturnValue()`. The child is abstract: `cstep` is its resume
function and `ctake` its `TakeReturnValue`. -/
def CancelIfResume {σ α : Type} (cond : Rat → Bool)
    (cstep : σ → Rat → σ × eTaskStatus) (ctake : σ → Option α) :
    CancelState σ α → Rat → CancelState σ α × eTaskStatus
  | .Running c, t =>
    if cond t then (.Finished none true, .Done)
    else
      match cstep c t with
      | (c', .Done) => (.Finished (ctake c') false, .Done)
      | (c', .Suspended) => (.Running c', .Suspended)
  | .Finished r k, _ => (.Finished r k, .Done)

/-- State of the void overload `CancelIfImpl(Task<>, ...)` (Task.h
947-967): the result is the bool the wrapper co_returns. -/
inductive CancelStateV (σ : Type) where
  | Running (child : σ)
  | Finished (result : Bool) (childKilled : Bool)

/-- One resume of the void `CancelIfImpl` overload: `co_return false` when
the cancel condition fires (killing the child), `co_return true` when the
child resumes to Done. -/
def CancelIfResumeV {σ : Type} (cond : Rat → Bool)
    (cstep : σ → Rat → σ × eTaskStatus) :
    CancelStateV σ → Rat → CancelStateV σ × eTaskStatus
  | .Running c, t =>
    if cond t then (.Finished false true, .Done)
    else
      match cstep c t with
      | (c', .Done) => (.Finished true false, .Done)
      | (c', .Suspended) => (.Running c', .Suspended)
  | .Finished r k, _ => (.Finished r k, .Done)

/-- Run of the non-void wrapper over a clock trace, collecting statuses. -/
def CancelIfRun {σ α : Type} (cond : Rat → Bool)
    (cstep : σ → Rat → σ × eTaskStatus) (ctake : σ → Option α)
    (s : CancelState σ α) : List Rat → List eTaskStatus × CancelState σ α
  | [] => ([], s)
  | t :: ts =>
    ((CancelIfResume cond cstep ctake s t).2 ::
      (CancelIfRun cond cstep ctake (CancelIfResume cond cstep ctake s t).1 ts).1,
     (CancelIfRun cond cstep ctake (CancelIfResume cond cstep ctake s t).1 ts).2)

/-- Run of the void wrapper over a clock trace, collecting statuses. -/
def CancelIfRunV {σ : Type} (cond : Rat → Bool)
    (cstep : σ → Rat → σ × eTaskStatus)
    (s : CancelStateV σ) : List Rat → List eTaskStatus × CancelStateV σ
  | [] => ([], s)
  | t :: ts =>
    ((CancelIfResumeV cond cstep s t).2 ::
      (CancelIfRunV cond cstep (CancelIfResumeV cond cstep s t).1 ts).1,
     (CancelIfRunV cond cstep (CancelIfResumeV cond cstep s t).1 ts).2)

/-- Model of `Timeout(child, δ, timeFn)` (Task.h 863-870): captures `startTime :=
timeFn()` eagerly when `Timeout` is called (`t0` here), builds the
`IsTimerUp` closure `GetTimeSince(startTime, timeFn) >= in_seconds`, and
returns `CancelTaskIf(child, IsTimerUp)`, i.e. the `CancelIfImpl` wrapper
with that condition. -/
def TimeoutRun {σ α : Type} (t0 δ : Rat)
    (cstep : σ → Rat → σ × eTaskStatus) (ctake : σ → Option α)
    (s : CancelState σ α) (ts : List Rat) : List eTaskStatus × CancelState σ α :=
  CancelIfRun (fun t => decide (t - t0 ≥ δ)) cstep ctake s ts

/-- Void-returning `Timeout` (same source function with `tRet = void`). -/
def TimeoutRunV {σ : Type} (t0 δ : Rat)
    (cstep : σ → Rat → σ × eTaskStatus)
    (s : CancelStateV σ) (ts : List Rat) : List eTaskStatus × CancelStateV σ :=
  CancelIfRunV (fun t => decide (t - t0 ≥ δ)) cstep s ts

/-- Modelled from the spec: the condition "elapsed time since the wrapper
was created ≥ Δ", with `tCreate` the clock value at wrapper creation. -/
def elapsedAtLeast (tCreate δ : Rat) : Rat → Bool :=
  fun t => decide (t - tCreate ≥ δ)

/-! ## Theorems -/

/-- C3 (code bug): a link list consisting of a single *conditional*
OnComplete link satisfies every acceptance condition stated by the spec
(the list was never declared before, it has no unconditional OnComplete
link, hence at most one, and no OnComplete link follows an unconditional
one), yet `TaskFSM::StateLinks` rejects it with the contract violation
"More than one unconditional OnCompleteLink() was set" — even though zero
unconditional OnComplete links were set.  The final check of the source,
`numOnCompleteLinks == 0 || numOnCompleteLinks_Unconditional > 0`,
contradicts both the comment directly above it ("there may be any number
of other OnComplete links, but only one with no condition") and its own
error message. -/
theorem stateLinks_rejects_all_conditional_onComplete :
    stateLinksClaimAccepts false [⟨true, true⟩] ∧
    stateLinks false [⟨true, true⟩] =
      .error "More than one unconditional OnCompleteLink() was set" := by
  exact ⟨by decide, rfl⟩

/-- C7 (confirmed): `TakeReturnValue` on an Unset slot returns an empty
optional and leaves the slot Unset; on a Set slot it moves the value out
and marks the slot Taken; and on a Taken or Orphaned slot it raises a
contract violation. -/
theorem takeReturnValue_state_machine {α : Type} (v : α) (stale : Option α) :
    TakeReturnValue (α := α) (.Unset, stale) = .ok (none, (.Unset, stale)) ∧
    TakeReturnValue (α := α) (.Set, some v) = .ok (some v, (.Taken, none)) ∧
    (∃ e, TakeReturnValue (α := α) (.Taken, stale) = .error e) ∧
    (∃ e, TakeReturnValue (α := α) (.Orphaned, stale) = .error e) := by
  exact ⟨rfl, rfl, ⟨_, rfl⟩, ⟨_, rfl⟩⟩

/-- C10 (counterexample): `Task::TakeReturnValue` is a public handle
operation, yet on an invalid handle it raises the contract violation
`SQUID_RUNTIME_CHECK(IsValid(), ...)` instead of degrading — refuting
"Every public handle operation is total on an invalid handle ... none of
them ... raises an error". -/
theorem invalid_handle_takeReturnValue_errors :
    handleTakeReturnValue (α := Nat) none =
      .error "Tried to retrieve return value from an invalid handle" := rfl

/-- C10 (amended): the query and control operations `IsValid`, `IsDone`,
`IsStopRequested`, `Resume`, `RequestStop` and `Kill` are total on an
invalid handle: `IsValid` is false, `IsDone` and `IsStopRequested` are
true, `Resume` returns Done, and `RequestStop` and `Kill` are no-ops,
none of them touching a cell or raising an error; `TakeReturnValue`
however raises a contract violation on an invalid handle. -/
theorem invalid_handle_operations_total (t : Rat) :
    Task.IsValid none = false ∧
    Task.IsDone none = true ∧
    Task.IsStopRequested none = true ∧
    Task.Resume none t = .ok (none, .Done) ∧
    Task.RequestStop none = none ∧
    Task.Kill none = .ok none ∧
    (∃ e, handleTakeReturnValue (α := Nat) none = .error e) := by
  exact ⟨rfl, rfl, rfl, rfl, rfl, rfl, ⟨_, rfl⟩⟩

/-- C8 (counterexample): `WaitSeconds` does not record `t0` at creation:
the coroutine body runs lazily, so `startTime` is sampled at the first
resume.  With Δ = 1, a task created while the clock reads 0 but first
resumed when the clock reads 5 satisfies `time - t0creation = 5 ≥ Δ`, so
the claim predicts completion at that resume; the source stays Suspended
(it samples `t0 = 5` at that moment). -/
theorem waitSeconds_t0_not_at_creation :
    ((5 : Rat) - 0 ≥ 1) ∧
    WaitSecondsResume 1 .NotStarted 5 = (.Waiting 5, .Suspended, none) := by
  refine ⟨by norm_num, ?_⟩
  simp [WaitSecondsResume]

/-- C8 (amended): `WaitSeconds(Δ, time_fn)` records `t0 = time_fn()` at its
*first resume* (behaving from then on exactly like a wait parked at that
`t0`); thereafter it stays Suspended at every resume with
`time_fn() - t0 < Δ` and completes at the first resume with
`time_fn() - t0 ≥ Δ`, returning the overshoot `time_fn() - t0 - Δ`; in
particular, with the clock advancing 0, 0.4, 0.8, 1.2 over four resumes
and Δ = 1, the statuses are Suspended, Suspended, Suspended, Done and the
returned overshoot is 0.2. -/
theorem waitSeconds_first_resume_semantics :
    (∀ (δ t : Rat),
      WaitSecondsResume δ .NotStarted t = WaitSecondsResume δ (.Waiting t) t) ∧
    (∀ (δ t0 t : Rat), t - t0 < δ →
      WaitSecondsResume δ (.Waiting t0) t = (.Waiting t0, .Suspended, none)) ∧
    (∀ (δ t0 t : Rat), t - t0 ≥ δ →
      WaitSecondsResume δ (.Waiting t0) t = (.Finished, .Done, some (t - t0 - δ))) ∧
    WaitSecondsRun 1 .NotStarted [0, 2/5, 4/5, 6/5] =
      ([.Suspended, .Suspended, .Suspended, .Done], .Finished, some (1/5)) := by
  refine ⟨fun δ t => rfl, fun δ t0 t h => ?_, fun δ t0 t h => ?_, ?_⟩
  · simp [WaitSecondsResume, not_le.mpr h]
  · simp [WaitSecondsResume, h]
  · norm_num [WaitSecondsRun, WaitSecondsResume]

/-- Witness for the amended C8 theorem at concrete inputs. -/
theorem waitSeconds_first_resume_semantics_witness :
    WaitSecondsResume 1 (.Waiting 0) (2/5) = (.Waiting 0, .Suspended, none) ∧
    WaitSecondsResume 1 (.Waiting 0) (6/5) = (.Finished, .Done, some (1/5)) := by
  have h := waitSeconds_first_resume_semantics
  refine ⟨h.2.1 1 0 (2/5) (by norm_num), ?_⟩
  have h3 := h.2.2.1 1 0 (6/5) (by norm_num)
  norm_num at h3
  exact h3

/-- C2 (counterexample): the void `CancelIfImpl` overload reports `false`,
not `true`, when the child is canceled: with a condition that is already
true, the first resume of the wrapper kills the child (childKilled) and
co_returns `false` — refuting "returns a boolean canceled (true exactly
when the child was canceled)". -/
theorem cancelIf_void_reports_false_on_cancel :
    CancelIfResumeV (σ := Unit) (fun _ => true) (fun u _ => (u, .Suspended))
      (.Running ()) 0 = (.Finished false true, .Done) := rfl

/-- A void wrapper that has finished never changes again: further resumes
return Done with the same recorded result. -/
theorem cancelIfRunV_finished {σ : Type} (cond : Rat → Bool)
    (cstep : σ → Rat → σ × eTaskStatus) (r k : Bool) :
    ∀ ts, (CancelIfRunV cond cstep (.Finished r k) ts).2 = .Finished r k := by
  intro ts
  induction ts with
  | nil => rfl
  | cons t ts ih => simpa [CancelIfRunV, CancelIfResumeV] using ih

/-- A non-void wrapper that has finished never changes again. -/
theorem cancelIfRun_finished {σ α : Type} (cond : Rat → Bool)
    (cstep : σ → Rat → σ × eTaskStatus) (ctake : σ → Option α)
    (r : Option α) (k : Bool) :
    ∀ ts, (CancelIfRun cond cstep ctake (.Finished r k) ts).2 = .Finished r k := by
  intro ts
  induction ts with
  | nil => rfl
  | cons t ts ih => simpa [CancelIfRun, CancelIfResume] using ih

/-- Over any run of the void wrapper that terminates, the child was killed
before completing exactly when the recorded result is `false`. -/
theorem cancelIfRunV_killed_iff {σ : Type} (cond : Rat → Bool)
    (cstep : σ → Rat → σ × eTaskStatus) :
    ∀ (ts : List Rat) (c : σ) (r k : Bool),
      (CancelIfRunV cond cstep (.Running c) ts).2 = .Finished r k →
      (k = true ↔ r = false) := by
  intro ts
  induction ts with
  | nil =>
    intro c r k h
    simp [CancelIfRunV] at h
  | cons t ts ih =>
    intro c r k h
    simp only [CancelIfRunV] at h
    cases hcond : cond t with
    | true =>
      have hstep : CancelIfResumeV cond cstep (.Running c) t =
          (.Finished false true, .Done) := by
        simp [CancelIfResumeV, hcond]
      rw [hstep] at h
      dsimp only at h
      rw [cancelIfRunV_finished cond cstep false true ts] at h
      injection h with h1 h2
      subst h1; subst h2; simp
    | false =>
      rcases hs : cstep c t with ⟨c', st⟩
      cases st with
      | Done =>
        have hstep : CancelIfResumeV cond cstep (.Running c) t =
            (.Finished true false, .Done) := by
          simp [CancelIfResumeV, hcond, hs]
        rw [hstep] at h
        dsimp only at h
        rw [cancelIfRunV_finished cond cstep true false ts] at h
        injection h with h1 h2
        subst h1; subst h2; simp
      | Suspended =>
        have hstep : CancelIfResumeV cond cstep (.Running c) t =
            (.Running c', .Suspended) := by
          simp [CancelIfResumeV, hcond, hs]
        rw [hstep] at h
        dsimp only at h
        exact ih c' r k h

/-- Over any run of the non-void wrapper that terminates on a child whose
`TakeReturnValue` is never empty, the recorded optional is empty exactly
when the child was killed before completing. -/
theorem cancelIfRun_empty_iff {σ α : Type} (cond : Rat → Bool)
    (cstep : σ → Rat → σ × eTaskStatus) (ctake : σ → Option α)
    (htake : ∀ s, ctake s ≠ none) :
    ∀ (ts : List Rat) (c : σ) (r : Option α) (k : Bool),
      (CancelIfRun cond cstep ctake (.Running c) ts).2 = .Finished r k →
      (k = true ↔ r = none) := by
  intro ts
  induction ts with
  | nil =>
    intro c r k h
    simp [CancelIfRun] at h
  | cons t ts ih =>
    intro c r k h
    simp only [CancelIfRun] at h
    cases hcond : cond t with
    | true =>
      have hstep : CancelIfResume cond cstep ctake (.Running c) t =
          (.Finished none true, .Done) := by
        simp [CancelIfResume, hcond]
      rw [hstep] at h
      dsimp only at h
      rw [cancelIfRun_finished cond cstep ctake none true ts] at h
      injection h with h1 h2
      subst h1; subst h2; simp
    | false =>
      rcases hs : cstep c t with ⟨c', st⟩
      cases st with
      | Done =>
        have hstep : CancelIfResume cond cstep ctake (.Running c) t =
            (.Finished (ctake c') false, .Done) := by
          simp [CancelIfResume, hcond, hs]
        rw [hstep] at h
        dsimp only at h
        rw [cancelIfRun_finished cond cstep ctake (ctake c') false ts] at h
        injection h with h1 h2
        subst h1; subst h2
        simp [htake c']
      | Suspended =>
        have hstep : CancelIfResume cond cstep ctake (.Running c) t =
            (.Running c', .Suspended) := by
          simp [CancelIfResume, hcond, hs]
        rw [hstep] at h
        dsimp only at h
        exact ih c' r k h

/-- C2 (amended): the cancel wrapper checks the condition before each step
of the child and, when it fires, kills the child; the void wrapper returns
a boolean that is `true` exactly when the child ran to completion (so
`false` exactly when it was canceled), and the non-void wrapper returns an
optional that is empty exactly when the child was canceled, and otherwise
holds the return value of the child. -/
theorem cancelIf_cancellation_semantics :
    (∀ {σ : Type} (cond : Rat → Bool) (cstep : σ → Rat → σ × eTaskStatus)
      (c : σ) (t : Rat), cond t = true →
      CancelIfResumeV cond cstep (.Running c) t = (.Finished false true, .Done)) ∧
    (∀ {σ : Type} (cond : Rat → Bool) (cstep : σ → Rat → σ × eTaskStatus)
      (c c' : σ) (t : Rat), cond t = false → cstep c t = (c', .Done) →
      CancelIfResumeV cond cstep (.Running c) t = (.Finished true false, .Done)) ∧
    (∀ {σ : Type} (cond : Rat → Bool) (cstep : σ → Rat → σ × eTaskStatus)
      (c c' : σ) (t : Rat), cond t = false → cstep c t = (c', .Suspended) →
      CancelIfResumeV cond cstep (.Running c) t = (.Running c', .Suspended)) ∧
    (∀ {σ α : Type} (cond : Rat → Bool) (cstep : σ → Rat → σ × eTaskStatus)
      (ctake : σ → Option α) (c : σ) (t : Rat), cond t = true →
      CancelIfResume cond cstep ctake (.Running c) t = (.Finished none true, .Done)) ∧
    (∀ {σ α : Type} (cond : Rat → Bool) (cstep : σ → Rat → σ × eTaskStatus)
      (ctake : σ → Option α) (c c' : σ) (t : Rat), cond t = false →
      cstep c t = (c', .Done) →
      CancelIfResume cond cstep ctake (.Running c) t =
        (.Finished (ctake c') false, .Done)) ∧
    (∀ {σ : Type} (cond : Rat → Bool) (cstep : σ → Rat → σ × eTaskStatus)
      (ts : List Rat) (c : σ) (r k : Bool),
      (CancelIfRunV cond cstep (.Running c) ts).2 = .Finished r k →
      (k = true ↔ r = false)) ∧
    (∀ {σ α : Type} (cond : Rat → Bool) (cstep : σ → Rat → σ × eTaskStatus)
      (ctake : σ → Option α), (∀ s, ctake s ≠ none) →
      ∀ (ts : List Rat) (c : σ) (r : Option α) (k : Bool),
      (CancelIfRun cond cstep ctake (.Running c) ts).2 = .Finished r k →
      (k = true ↔ r = none)) := by
  refine ⟨?_, ?_, ?_, ?_, ?_, ?_, ?_⟩
  · intro σ cond cstep c t h
    simp [CancelIfResumeV, h]
  · intro σ cond cstep c c' t h hs
    simp [CancelIfResumeV, h, hs]
  · intro σ cond cstep c c' t h hs
    simp [CancelIfResumeV, h, hs]
  · intro σ α cond cstep ctake c t h
    simp [CancelIfResume, h]
  · intro σ α cond cstep ctake c c' t h hs
    simp [CancelIfResume, h, hs]
  · intro σ cond cstep ts c r k h
    exact cancelIfRunV_killed_iff cond cstep ts c r k h
  · intro σ α cond cstep ctake htake ts c r k h
    exact cancelIfRun_empty_iff cond cstep ctake htake ts c r k h

/-- Witness for the amended C2 theorem at concrete inputs. -/
theorem cancelIf_cancellation_semantics_witness :
    CancelIfResumeV (σ := Unit) (fun _ => true) (fun u _ => (u, .Suspended))
      (.Running ()) 2 = (.Finished false true, .Done) ∧
    CancelIfResume (σ := Unit) (α := Nat) (fun _ => false)
      (fun u _ => (u, .Done)) (fun _ => some 7) (.Running ()) 2 =
      (.Finished (some 7) false, .Done) ∧
    ((false : Bool) = true ↔ (some 7 : Option Nat) = none) := by
  have h := cancelIf_cancellation_semantics
  refine ⟨h.1 _ _ () 2 rfl, h.2.2.2.2.1 _ _ _ () () 2 rfl rfl, ?_⟩
  exact h.2.2.2.2.2.2 (fun _ => false) (fun u _ => (u, .Done)) (fun _ => some 7)
    (fun _ => by simp) [2] () (some 7) false
    (by simp [CancelIfRun, CancelIfResume])

/-- C9 (confirmed): `Timeout(child, Δ, time_fn)` is the `CancelIf` wrapper
of the same child with the condition "elapsed time since the wrapper was
created ≥ Δ" — the two produce identical status sequences and identical
results over every clock trace (void and non-void children alike); the
condition fires (killing the child and reporting cancellation) at exactly
the resumes where Δ has elapsed since creation. -/
theorem timeout_equals_cancelIf_elapsed :
    (∀ {σ α : Type} (t0 δ : Rat) (cstep : σ → Rat → σ × eTaskStatus)
      (ctake : σ → Option α) (s : CancelState σ α) (ts : List Rat),
      TimeoutRun t0 δ cstep ctake s ts =
        CancelIfRun (elapsedAtLeast t0 δ) cstep ctake s ts) ∧
    (∀ {σ : Type} (t0 δ : Rat) (cstep : σ → Rat → σ × eTaskStatus)
      (s : CancelStateV σ) (ts : List Rat),
      TimeoutRunV t0 δ cstep s ts = CancelIfRunV (elapsedAtLeast t0 δ) cstep s ts) ∧
    (∀ {σ : Type} (t0 δ : Rat) (cstep : σ → Rat → σ × eTaskStatus)
      (c : σ) (t : Rat), t - t0 ≥ δ →
      CancelIfResumeV (elapsedAtLeast t0 δ) cstep (.Running c) t =
        (.Finished false true, .Done)) ∧
    (∀ {σ : Type} (t0 δ : Rat) (cstep : σ → Rat → σ × eTaskStatus)
      (c c' : σ) (t : Rat), t - t0 < δ → cstep c t = (c', .Suspended) →
      CancelIfResumeV (elapsedAtLeast t0 δ) cstep (.Running c) t =
        (.Running c', .Suspended)) := by
  refine ⟨fun _ _ _ _ _ _ => rfl, fun _ _ _ _ _ => rfl, ?_, ?_⟩
  · intro σ t0 δ cstep c t h
    simp [CancelIfResumeV, elapsedAtLeast, h]
  · intro σ t0 δ cstep c c' t h hs
    simp [CancelIfResumeV, elapsedAtLeast, not_le.mpr h, hs]

/-- Witness for the C9 theorem at concrete inputs. -/
theorem timeout_equals_cancelIf_elapsed_witness :
    CancelIfResumeV (σ := Unit) (elapsedAtLeast 0 1) (fun u _ => (u, .Suspended))
      (.Running ()) 1 = (.Finished false true, .Done) ∧
    CancelIfResumeV (σ := Unit) (elapsedAtLeast 0 1) (fun u _ => (u, .Suspended))
      (.Running ()) (1/2) = (.Running (), .Suspended) := by
  have h := timeout_equals_cancelIf_elapsed
  exact ⟨h.2.2.1 0 1 _ () 1 (by norm_num),
         h.2.2.2 0 1 _ () () (1/2) (by norm_num) rfl⟩

/-- Indexing past a left factor of an append. -/
theorem list_get?_append_len {β : Type} :
    ∀ (l₁ l₂ : List β) (n : Nat), (l₁ ++ l₂).get? (l₁.length + n) = l₂.get? n := by
  intro l₁
  induction l₁ with
  | nil => intro l₂ n; simp
  | cons x xs ih =>
    intro l₂ n
    have h : (x :: xs).length + n = (xs.length + n) + 1 := by
      simp only [List.length_cons]
      omega
    rw [h]
    simpa using ih l₂ n

/-- Writing past a left factor of an append. -/
theorem list_set_append_len {β : Type} :
    ∀ (l₁ l₂ : List β) (n : Nat) (a : β),
      (l₁ ++ l₂).set (l₁.length + n) a = l₁ ++ l₂.set n a := by
  intro l₁
  induction l₁ with
  | nil => intro l₂ n a; simp
  | cons x xs ih =>
    intro l₂ n a
    have h : (x :: xs).length + n = (xs.length + n) + 1 := by
      simp only [List.length_cons]
      omega
    rw [h]
    simpa using ih l₂ n a

/-- The compaction loop of `TaskManager::Update` is the queue-processing
formulation: with the vector split as processed survivors, stale
(moved-from) slots and the still-pending suffix, each iteration pops the
front of the pending suffix and appends whatever it enqueued at the
tail. -/
theorem updateGo_eq_queueGo :
    ∀ (fuel : Nat) (s g p : List SimTask) (tr : List Nat),
      updateGo fuel (s ++ g ++ p) (s.length + g.length) s.length tr =
        queueGo fuel s p tr := by
  intro fuel
  induction fuel with
  | zero =>
    intro s g p tr
    simp only [updateGo, queueGo]
    rw [List.append_assoc, List.take_left]
  | succ fuel ih =>
    intro s g p tr
    have hlen : s.length + g.length = (s ++ g).length + 0 := by
      simp
    cases p with
    | nil =>
      have hget : ((s ++ g) ++ ([] : List SimTask)).get? (s.length + g.length) = none := by
        rw [hlen, list_get?_append_len (s ++ g) [] 0]
        rfl
      simp only [updateGo, queueGo, hget]
      rw [List.append_nil, List.take_left]
    | cons t rest =>
      have hget : ((s ++ g) ++ (t :: rest)).get? (s.length + g.length) = some t := by
        rw [hlen, list_get?_append_len (s ++ g) (t :: rest) 0]
        rfl
      rcases hres : t.resume with ⟨t', status, spawned⟩
      have hset : ((s ++ g) ++ (t :: rest)).set (s.length + g.length) t' =
          (s ++ g) ++ (t' :: rest) := by
        rw [hlen, list_set_append_len (s ++ g) (t :: rest) 0 t']
        rfl
      cases status with
      | Done =>
        simp only [updateGo, queueGo, hget, hres, if_true]
        rw [hset]
        have hA : ((s ++ g) ++ (t' :: rest)) ++ spawned =
            (s ++ (g ++ [t'])) ++ (rest ++ spawned) := by
          simp
        have hi : s.length + g.length + 1 = s.length + (g ++ [t']).length := by
          simp only [List.length_append, List.length_cons, List.length_nil]
          omega
        rw [hA, hi]
        exact ih s (g ++ [t']) (rest ++ spawned) (tr ++ [t.id])
      | Suspended =>
        have hif : (eTaskStatus.Suspended = eTaskStatus.Done) ↔ False := by
          simp
        simp only [updateGo, queueGo, hget, hres, hif, if_false]
        cases g with
        | nil =>
          have hw : ¬ (s.length ≠ s.length + List.length ([] : List SimTask)) := by
            simp
          rw [if_neg hw, hset]
          have hA : ((s ++ []) ++ (t' :: rest)) ++ spawned =
              ((s ++ [t']) ++ []) ++ (rest ++ spawned) := by
            simp
          have hi : s.length + List.length ([] : List SimTask) + 1 =
              (s ++ [t']).length + List.length ([] : List SimTask) := by
            simp
          have hw2 : s.length + 1 = (s ++ [t']).length := by
            simp
          rw [hA, hi, hw2]
          exact ih (s ++ [t']) [] (rest ++ spawned) (tr ++ [t.id])
        | cons g0 gs =>
          have hw : s.length ≠ s.length + (g0 :: gs).length := by
            simp only [List.length_cons]
            omega
          rw [if_pos hw, hset]
          have hA : (((s ++ (g0 :: gs)) ++ (t' :: rest)) ++ spawned).set s.length t' =
              ((s ++ [t']) ++ (gs ++ [t'])) ++ (rest ++ spawned) := by
            rw [show ((s ++ (g0 :: gs)) ++ (t' :: rest)) ++ spawned =
                  s ++ ((g0 :: gs) ++ ((t' :: rest) ++ spawned)) from by
                simp]
            rw [show s.length = s.length + 0 from by omega,
                list_set_append_len s ((g0 :: gs) ++ ((t' :: rest) ++ spawned)) 0 t']
            simp
          have hi : s.length + (g0 :: gs).length + 1 =
              (s ++ [t']).length + (gs ++ [t']).length := by
            simp only [List.length_append, List.length_cons, List.length_nil]
            omega
          have hw2 : s.length + 1 = (s ++ [t']).length := by
            simp
          rw [hA, hi, hw2]
          exact ih (s ++ [t']) (gs ++ [t']) (rest ++ spawned) (tr ++ [t.id])

/-- Scenario task D (spawned by A during tick 2): suspends a few ticks. -/
def exTaskD : SimTask :=
  .mk 3 [(false, []), (false, []), (false, [])]

/-- Scenario task A: suspends each tick; on its second resume it runs task
D on the manager (`run_managed` during `update`). -/
def exTaskA : SimTask :=
  .mk 0 [(false, []), (false, [exTaskD]), (false, []), (false, [])]

/-- Scenario task B: suspends each tick. -/
def exTaskB : SimTask :=
  .mk 1 [(false, []), (false, []), (false, []), (false, [])]

/-- Scenario task C: suspends each tick. -/
def exTaskC : SimTask :=
  .mk 2 [(false, []), (false, []), (false, []), (false, [])]

/-- C1 (counterexample): manager runs A, B, C; during the resume of A on
tick 2, A enqueues D.  The update loop of the source re-reads
`m_tasks.size()` on every iteration, so the tick-2 resume order is
A, B, C, D: the newly enqueued task D *is* resumed during that same
`Update` call, refuting "the newly enqueued task ... is not resumed
during that same Update call; it is first resumed on the next Update". -/
theorem update_spawned_task_resumed_same_update :
    (update 10 (update 10 [exTaskA, exTaskB, exTaskC]).1).2 = [0, 1, 2, 3] ∧
    3 ∈ (update 10 (update 10 [exTaskA, exTaskB, exTaskC]).1).2 := by
  exact ⟨rfl, by decide⟩

/-- C1 (amended): a task enqueued (via `Run`/`RunManaged`, both of which
push onto `m_tasks`) from inside a task body resumed by `Update` is
appended at the tail of the roster and *is* resumed later within that same
`Update` call, after the entries that were ahead of it — the update loop
is exactly queue processing with spawned tasks appended at the tail of
the pending queue (first conjunct); concretely, with roster A, B, C where
A enqueues D during its tick-2 resume, the tick-2 resume order is
A, B, C, D and the tick-3 resume order is again A, B, C, D. -/
theorem update_equals_queue_and_appends_at_tail :
    (∀ (fuel : Nat) (tasks : List SimTask),
      update fuel tasks = queueGo fuel [] tasks []) ∧
    (update 10 (update 10 [exTaskA, exTaskB, exTaskC]).1).2 = [0, 1, 2, 3] ∧
    (update 10 (update 10 (update 10 [exTaskA, exTaskB, exTaskC]).1).1).2 =
      [0, 1, 2, 3] := by
  refine ⟨fun fuel tasks => ?_, rfl, rfl⟩
  have h := updateGo_eq_queueGo fuel [] [] tasks []
  simpa [update] using h

/-- Reading `(l.set i a)[k]?`: the write is visible exactly at `k = i` (and only
when `i` is in bounds, which the `Option.map` phrasing captures). -/
theorem list_getElem?_set {β : Type} :
    ∀ (l : List β) (i k : Nat) (a : β),
      (l.set i a)[k]? = if i = k then (l[k]?).map (fun _ => a) else l[k]? := by
  intro l
  induction l with
  | nil => intro i k a; simp
  | cons x xs ih =>
    intro i k a
    cases i with
    | zero =>
      cases k with
      | zero => simp
      | succ k => simp
    | succ i =>
      cases k with
      | zero => simp
      | succ k =>
        simp only [List.set]
        have h1 : (x :: xs.set i a)[k + 1]? = (xs.set i a)[k]? := by simp
        have h2 : (x :: xs)[k + 1]? = xs[k]? := by simp
        rw [h1, h2, ih i k a]
        by_cases h : i = k
        · subst h; simp
        · simp [h, fun hc => h (Nat.succ_injective hc)]

/-- Writing back the value already stored is the identity. -/
theorem list_set_getElem?_self {β : Type} :
    ∀ (l : List β) (i : Nat) (a : β), l[i]? = some a → l.set i a = l := by
  intro l
  induction l with
  | nil => intro i a h; simp at h
  | cons x xs ih =>
    intro i a h
    cases i with
    | zero =>
      simp only [List.getElem?_cons_zero] at h
      cases h
      rfl
    | succ i =>
      simp only [List.getElem?_cons_succ] at h
      simp [List.set, ih i a h]

/-- The step function of the propagation loop in
`TaskInternalBase::RequestStop`: lock the weak pointer (skip dead cells)
and recurse. -/
def sPropagate (fuel : Nat) : List SCell → Nat → List SCell :=
  fun acc j =>
    match acc[j]? with
    | some cj => if cj.alive then sRequestStop fuel acc j else acc
    | none => acc

/-- Unfolding of `sRequestStop` at positive fuel, phrased through
`sPropagate`. -/
theorem sRequestStop_succ (fuel : Nat) (s : List SCell) (i : Nat) :
    sRequestStop (fuel + 1) s i =
      match s[i]? with
      | none => s
      | some c =>
        match (c.stopList.foldl (sPropagate fuel)
            (s.set i { c with stopRequested := true }))[i]? with
        | some c2 => (c.stopList.foldl (sPropagate fuel)
            (s.set i { c with stopRequested := true })).set i { c2 with stopList := [] }
        | none => c.stopList.foldl (sPropagate fuel)
            (s.set i { c with stopRequested := true }) := by
  rfl

/-- Helper: `sRequestStop` never changes the length of the store. -/
theorem sRS_length :
    ∀ (fuel : Nat) (s : List SCell) (i : Nat),
      (sRequestStop fuel s i).length = s.length := by
  intro fuel
  induction fuel with
  | zero => intro s i; rfl
  | succ fuel ih =>
    intro s i
    rw [sRequestStop_succ]
    cases hgi : s[i]? with
    | none => rfl
    | some c =>
      dsimp only
      have hfold : ∀ (l : List Nat) (acc : List SCell), acc.length = s.length →
          (l.foldl (sPropagate fuel) acc).length = s.length := by
        intro l
        induction l with
        | nil => intro acc h; exact h
        | cons x xs ihl =>
          intro acc h
          apply ihl
          simp only [sPropagate]
          cases hax : acc[x]? with
          | none => exact h
          | some cx =>
            by_cases hal : cx.alive = true
            · simpa [hal] using (ih acc x).trans h
            · simpa [hal] using h
      have h2 := hfold c.stopList (s.set i { c with stopRequested := true })
        (by simp)
      cases hg2 : (c.stopList.foldl (sPropagate fuel)
          (s.set i { c with stopRequested := true }))[i]? with
      | none => exact h2
      | some c2 => simpa using h2

/-- Helper: `sRequestStop` never changes which cells are alive. -/
theorem sRS_alive :
    ∀ (fuel : Nat) (s : List SCell) (i k : Nat),
      ((sRequestStop fuel s i)[k]?).map SCell.alive = (s[k]?).map SCell.alive := by
  intro fuel
  induction fuel with
  | zero => intro s i k; rfl
  | succ fuel ih =>
    intro s i k
    rw [sRequestStop_succ]
    cases hgi : s[i]? with
    | none => rfl
    | some c =>
      dsimp only
      have hset1 : ∀ (k' : Nat), ((s.set i { c with stopRequested := true })[k']?).map SCell.alive =
          (s[k']?).map SCell.alive := by
        intro k'
        rw [list_getElem?_set]
        by_cases hik : i = k'
        · subst hik; simp [hgi]
        · simp [hik]
      have hfold : ∀ (l : List Nat) (acc : List SCell),
          (∀ (k' : Nat), (acc[k']?).map SCell.alive = (s[k']?).map SCell.alive) →
          ∀ (k' : Nat), ((l.foldl (sPropagate fuel) acc)[k']?).map SCell.alive =
            (s[k']?).map SCell.alive := by
        intro l
        induction l with
        | nil => intro acc h; exact h
        | cons x xs ihl =>
          intro acc h
          apply ihl
          intro k'
          simp only [sPropagate]
          cases hax : acc[x]? with
          | none => exact h k'
          | some cx =>
            by_cases hal : cx.alive = true
            · simpa [hal] using (ih acc x k').trans (h k')
            · simpa [hal] using h k'
      have h2 := hfold c.stopList _ hset1
      cases hg2 : (c.stopList.foldl (sPropagate fuel)
          (s.set i { c with stopRequested := true }))[i]? with
      | none => exact h2 k
      | some c2 =>
        dsimp only
        rw [list_getElem?_set]
        by_cases hik : i = k
        · subst hik
          have h3 := h2 i
          rw [hg2] at h3
          simp at h3
          rw [if_pos rfl, hg2]
          simpa using h3
        · simp only [hik, if_false]
          exact h2 k

/-- A stop flag that is set stays set across any `sRequestStop` call. -/
theorem sRS_sticky :
    ∀ (fuel : Nat) (s : List SCell) (i k : Nat),
      (s[k]?).map SCell.stopRequested = some true →
      ((sRequestStop fuel s i)[k]?).map SCell.stopRequested = some true := by
  intro fuel
  induction fuel with
  | zero => intro s i k h; exact h
  | succ fuel ih =>
    intro s i k h
    rw [sRequestStop_succ]
    cases hgi : s[i]? with
    | none => exact h
    | some c =>
      dsimp only
      have hset1 : ((s.set i { c with stopRequested := true })[k]?).map
          SCell.stopRequested = some true := by
        rw [list_getElem?_set]
        by_cases hik : i = k
        · subst hik; simp [hgi]
        · simp [hik, h]
      have hfold : ∀ (l : List Nat) (acc : List SCell) (k' : Nat),
          ((acc[k']?).map SCell.stopRequested = some true) →
          ((l.foldl (sPropagate fuel) acc)[k']?).map SCell.stopRequested = some true := by
        intro l
        induction l with
        | nil => intro acc k' hacc; exact hacc
        | cons x xs ihl =>
          intro acc k' hacc
          apply ihl
          simp only [sPropagate]
          cases hax : acc[x]? with
          | none => exact hacc
          | some cx =>
            by_cases hal : cx.alive = true
            · simpa [hal] using ih acc x k' hacc
            · simpa [hal] using hacc
      have h2 := hfold c.stopList _ k hset1
      cases hg2 : (c.stopList.foldl (sPropagate fuel)
          (s.set i { c with stopRequested := true }))[i]? with
      | none => exact h2
      | some c2 =>
        dsimp only
        rw [list_getElem?_set]
        by_cases hik : i = k
        · subst hik
          have hseti : ((s.set i { c with stopRequested := true })[i]?).map
              SCell.stopRequested = some true := by
            rw [list_getElem?_set]; simp [hgi]
          have h3 := hfold c.stopList _ i hseti
          rw [hg2] at h3
          simp at h3
          rw [if_pos rfl, hg2]
          simpa using h3
        · simp only [hik, if_false]
          exact h2

/-- A successful optional index is in bounds. -/
theorem list_getElem?_lt {β : Type} :
    ∀ (l : List β) (i : Nat) (a : β), l[i]? = some a → i < l.length := by
  intro l
  induction l with
  | nil => intro i a h; simp at h
  | cons x xs ih =>
    intro i a h
    cases i with
    | zero => simp
    | succ i =>
      simp only [List.getElem?_cons_succ] at h
      have := ih i a h
      simp only [List.length_cons]
      omega

/-- An in-bounds index yields a value. -/
theorem list_lt_getElem? {β : Type} :
    ∀ (l : List β) (i : Nat), i < l.length → ∃ a, l[i]? = some a := by
  intro l
  induction l with
  | nil => intro i h; simp at h
  | cons x xs ih =>
    intro i h
    cases i with
    | zero => exact ⟨x, by simp⟩
    | succ i =>
      simp only [List.length_cons] at h
      simpa using ih i (by omega)

/-- The propagation fold never changes the length of the store. -/
theorem sFold_length (fuel : Nat) :
    ∀ (l : List Nat) (acc : List SCell),
      (l.foldl (sPropagate fuel) acc).length = acc.length := by
  intro l
  induction l with
  | nil => intro acc; rfl
  | cons x xs ihl =>
    intro acc
    rw [List.foldl_cons, ihl]
    simp only [sPropagate]
    cases hax : acc[x]? with
    | none => rfl
    | some cx =>
      by_cases hal : cx.alive = true
      · simpa [hal] using sRS_length fuel acc x
      · simp [hal]

/-- The propagation fold preserves a set stop flag. -/
theorem sFold_sticky (fuel : Nat) :
    ∀ (l : List Nat) (acc : List SCell) (k : Nat),
      (acc[k]?).map SCell.stopRequested = some true →
      ((l.foldl (sPropagate fuel) acc)[k]?).map SCell.stopRequested = some true := by
  intro l
  induction l with
  | nil => intro acc k h; exact h
  | cons x xs ihl =>
    intro acc k h
    rw [List.foldl_cons]
    apply ihl
    simp only [sPropagate]
    cases hax : acc[x]? with
    | none => exact h
    | some cx =>
      by_cases hal : cx.alive = true
      · simpa [hal] using sRS_sticky fuel acc x k h
      · simpa [hal] using h

/-- The propagation fold preserves the alive map. -/
theorem sFold_alive (fuel : Nat) :
    ∀ (l : List Nat) (acc : List SCell) (k : Nat),
      ((l.foldl (sPropagate fuel) acc)[k]?).map SCell.alive = (acc[k]?).map SCell.alive := by
  intro l
  induction l with
  | nil => intro acc k; rfl
  | cons x xs ihl =>
    intro acc k
    rw [List.foldl_cons, ihl]
    simp only [sPropagate]
    cases hax : acc[x]? with
    | none => rfl
    | some cx =>
      by_cases hal : cx.alive = true
      · simpa [hal] using sRS_alive fuel acc x k
      · simp [hal]

/-- After `sRequestStop` with positive fuel on a present cell, that cell
has its stop flag set and its stop-propagation list cleared. -/
theorem sRS_clears (fuel : Nat) (s : List SCell) (i : Nat) (c : SCell)
    (hgi : s[i]? = some c) :
    ∃ c', (sRequestStop (fuel + 1) s i)[i]? = some c' ∧
      c'.stopRequested = true ∧ c'.stopList = [] := by
  rw [sRequestStop_succ, hgi]
  dsimp only
  have hflag1 : ((s.set i { c with stopRequested := true })[i]?).map
      SCell.stopRequested = some true := by
    rw [list_getElem?_set]
    simp [hgi]
  have hflag2 := sFold_sticky fuel c.stopList _ i hflag1
  have hlen : i < (c.stopList.foldl (sPropagate fuel)
      (s.set i { c with stopRequested := true })).length := by
    rw [sFold_length]
    simpa using list_getElem?_lt s i c hgi
  obtain ⟨c2, hg2⟩ := list_lt_getElem? _ i hlen
  rw [hg2]
  dsimp only
  refine ⟨{ c2 with stopList := [] }, ?_, ?_, rfl⟩
  · rw [list_getElem?_set]
    simp [hg2]
  · rw [hg2] at hflag2
    simpa using hflag2

/-- Helper: `sRequestStop` with fuel at least two sets the stop flag of every
still-alive cell in the stop-propagation list of the target. -/
theorem sRS_propagates (fuel : Nat) (s : List SCell) (i : Nat) (c : SCell)
    (hgi : s[i]? = some c) :
    ∀ j ∈ c.stopList, (s[j]?).map SCell.alive = some true →
      ((sRequestStop (fuel + 2) s i)[j]?).map SCell.stopRequested = some true := by
  intro j hj halive
  rw [show fuel + 2 = (fuel + 1) + 1 from rfl, sRequestStop_succ, hgi]
  dsimp only
  have hfold : ∀ (l : List Nat) (acc : List SCell) (j' : Nat), j' ∈ l →
      (acc[j']?).map SCell.alive = some true →
      ((l.foldl (sPropagate (fuel + 1)) acc)[j']?).map SCell.stopRequested = some true := by
    intro l
    induction l with
    | nil => intro acc j' hm; simp at hm
    | cons x xs ihl =>
      intro acc j' hm ha
      rw [List.foldl_cons]
      rcases List.mem_cons.mp hm with hx | hxs
      · subst hx
        have hax : ∃ cx, acc[j']? = some cx ∧ cx.alive = true := by
          cases hax : acc[j']? with
          | none => rw [hax] at ha; simp at ha
          | some cx =>
            rw [hax] at ha
            simp only [Option.map] at ha
            exact ⟨cx, rfl, by simpa using ha⟩
        obtain ⟨cx, hax, hal⟩ := hax
        have hstep : sPropagate (fuel + 1) acc j' = sRequestStop (fuel + 1) acc j' := by
          simp [sPropagate, hax, hal]
        rw [hstep]
        apply sFold_sticky
        obtain ⟨c', hg', hf', _⟩ := sRS_clears fuel acc j' cx hax
        rw [hg']
        simp [hf']
      · apply ihl _ _ hxs
        simp only [sPropagate]
        cases hax : acc[x]? with
        | none => exact ha
        | some cx =>
          by_cases hal : cx.alive = true
          · simpa [hal] using (sRS_alive (fuel + 1) acc x j').trans ha
          · simpa [hal] using ha
  have ha1 : ((s.set i { c with stopRequested := true })[j]?).map SCell.alive =
      some true := by
    rw [list_getElem?_set]
    by_cases hik : i = j
    · subst hik
      rw [hgi] at halive ⊢
      simpa using halive
    · simpa [hik] using halive
  have h2 := hfold c.stopList _ j hj ha1
  cases hg2 : (c.stopList.foldl (sPropagate (fuel + 1))
      (s.set i { c with stopRequested := true }))[i]? with
  | none => exact h2
  | some c2 =>
    dsimp only
    rw [list_getElem?_set]
    by_cases hik : i = j
    · subst hik
      rw [hg2] at h2 ⊢
      simpa using h2
    · simpa [hik] using h2

/-- Issuing `sRequestStop` a second time on the same cell leaves the whole
store unchanged: the first call set the flag and cleared the list. -/
theorem sRS_idempotent (fuel g : Nat) (s : List SCell) (i : Nat) :
    sRequestStop (g + 1) (sRequestStop (fuel + 1) s i) i =
      sRequestStop (fuel + 1) s i := by
  cases hgi : s[i]? with
  | none =>
    have h1 : sRequestStop (fuel + 1) s i = s := by
      rw [sRequestStop_succ, hgi]
    rw [h1, sRequestStop_succ, hgi]
  | some c =>
    obtain ⟨c', hg', hflag, hlist⟩ := sRS_clears fuel s i c hgi
    have hc1 : { c' with stopRequested := true } = c' := by
      cases c'
      simp only at hflag
      simp [hflag]
    have hc2 : { c' with stopList := ([] : List Nat) } = c' := by
      cases c'
      simp only at hlist
      simp [hlist]
    rw [sRequestStop_succ, hg']
    dsimp only
    rw [hc1, list_set_getElem?_self _ _ _ hg', hlist]
    simp only [List.foldl_nil]
    rw [hg']
    dsimp only
    rw [hc2, list_set_getElem?_self _ _ _ hg']

/-- C6 (confirmed): `RequestStop` on a cell sets its stop flag, issues
`RequestStop` on every still-live cell of its stop-propagation list, and
clears that list; the flag is sticky (no `RequestStop` call ever clears a
set flag anywhere in the store), and a second `RequestStop` on the same
cell leaves the entire store — the cell and every reachable cell — exactly
as after the first call.  `fuel` bounds the propagation recursion depth
(the source recursion is only ever run on acyclic propagation graphs). -/
theorem requestStop_propagates_sticky_idempotent
    (fuel : Nat) (s : List SCell) (i : Nat) (c : SCell) (hc : s[i]? = some c) :
    (∃ c', (sRequestStop (fuel + 1) s i)[i]? = some c' ∧
      c'.stopRequested = true ∧ c'.stopList = []) ∧
    (∀ j ∈ c.stopList, (s[j]?).map SCell.alive = some true →
      ((sRequestStop (fuel + 2) s i)[j]?).map SCell.stopRequested = some true) ∧
    (∀ (f2 i2 k : Nat), (s[k]?).map SCell.stopRequested = some true →
      ((sRequestStop f2 s i2)[k]?).map SCell.stopRequested = some true) ∧
    (∀ (g : Nat), sRequestStop (g + 1) (sRequestStop (fuel + 1) s i) i =
      sRequestStop (fuel + 1) s i) := by
  exact ⟨sRS_clears fuel s i c hc, sRS_propagates fuel s i c hc,
    fun f2 i2 k => sRS_sticky f2 s i2 k, fun g => sRS_idempotent fuel g s i⟩

/-- A concrete three-cell store: cell 0 propagates to cells 1 and 2; cell 2
is dead. -/
def exStore : List SCell :=
  [⟨true, false, [1, 2]⟩, ⟨true, false, []⟩, ⟨false, false, []⟩]

/-- Witness for the C6 theorem at a concrete store. -/
theorem requestStop_propagates_sticky_idempotent_witness :
    ((sRequestStop 2 exStore 0)[1]?).map SCell.stopRequested = some true ∧
    sRequestStop 3 (sRequestStop 1 exStore 0) 0 = sRequestStop 1 exStore 0 := by
  have h := requestStop_propagates_sticky_idempotent 0 exStore 0
    ⟨true, false, [1, 2]⟩ (by rfl)
  exact ⟨h.2.1 1 (by decide) (by rfl), h.2.2.2 2⟩

/-- C4 (confirmed): `TaskInternalBase::Resume` follows the claimed
algorithm.  Conjuncts, in the order of the claim: a Destroyed cell
returns Done with the cell untouched; with a sub-task attached, the stop
flag is propagated into the sub-task and the sub-task resumed recursively
first — if it is not Done the parent returns Suspended with its own frame
and predicate untouched, otherwise the parent behaves exactly like the
cell with the sub-task pointer cleared; with a readiness predicate
returning false the cell returns Suspended without stepping the frame
(predicate retained); with the predicate true (or absent) the predicate
is cleared and the frame stepped, the result is Done exactly when the
frame thereby completed, and the done flag is set exactly then. -/
theorem resume_follows_algorithm :
    (∀ (c : Cell) (t : Rat), c.istate = .Destroyed → c.Resume t = .ok (c, .Done)) ∧
    (∀ (d st : Bool) (sc : Cell) (r : Option (Rat → Bool)) (f : Option Nat)
      (rt : eTaskRetValState) (rc : Int) (t : Rat) (sc' : Cell),
      (if st then sc.setStop else sc).Resume t = .ok (sc', .Suspended) →
      (Cell.mk .Idle d st (some sc) r f rt rc).Resume t =
        .ok (.mk .Idle d st (some sc') r f rt rc, .Suspended)) ∧
    (∀ (d st : Bool) (sc : Cell) (r : Option (Rat → Bool)) (f : Option Nat)
      (rt : eTaskRetValState) (rc : Int) (t : Rat) (sc' : Cell),
      (if st then sc.setStop else sc).Resume t = .ok (sc', .Done) →
      (Cell.mk .Idle d st (some sc) r f rt rc).Resume t =
        (Cell.mk .Idle d st none r f rt rc).Resume t) ∧
    (∀ (st : Bool) (p : Rat → Bool) (n : Nat) (rt : eTaskRetValState) (rc : Int)
      (t : Rat), p t = false →
      (Cell.mk .Idle false st none (some p) (some (n + 1)) rt rc).Resume t =
        .ok (.mk .Idle false st none (some p) (some (n + 1)) rt rc, .Suspended)) ∧
    (∀ (st : Bool) (p : Rat → Bool) (n : Nat) (rt : eTaskRetValState) (rc : Int)
      (t : Rat), p t = true →
      (Cell.mk .Idle false st none (some p) (some (n + 1)) rt rc).Resume t =
        .ok (.mk .Idle (if n = 0 then true else false) st none none (some n)
              (if n = 0 ∧ rt = .Unset then .Set else rt) rc,
             if n = 0 then .Done else .Suspended)) ∧
    (∀ (st : Bool) (n : Nat) (rt : eTaskRetValState) (rc : Int) (t : Rat),
      (Cell.mk .Idle false st none none (some (n + 1)) rt rc).Resume t =
        .ok (.mk .Idle (if n = 0 then true else false) st none none (some n)
              (if n = 0 ∧ rt = .Unset then .Set else rt) rc,
             if n = 0 then .Done else .Suspended)) := by
  refine ⟨?_, ?_, ?_, ?_, ?_, ?_⟩
  · intro c t h
    cases c with
    | mk s d st sb r f rt rc =>
      simp only [Cell.istate] at h
      subst h
      rw [Cell.Resume.eq_def]
      simp
  · intro d st sc r f rt rc t sc' h
    rw [Cell.Resume.eq_def]
    simp [h]
  · intro d st sc r f rt rc t sc' h
    rw [Cell.Resume.eq_def, Cell.Resume.eq_def]
    simp [h]
  · intro st p n rt rc t h
    rw [Cell.Resume.eq_def]
    simp [Cell.resumeFrame, Cell.CanResume, h]
  · intro st p n rt rc t h
    rw [Cell.Resume.eq_def]
    simp [Cell.resumeFrame, Cell.CanResume, h]
  · intro st n rt rc t
    rw [Cell.Resume.eq_def]
    simp [Cell.resumeFrame, Cell.CanResume]

/-- Witness for the C4 theorem at concrete cells: a Destroyed cell, a cell
awaiting a suspended sub-task, a cell parked on a false predicate, and a
cell whose predicate has become true with one frame step left. -/
theorem resume_follows_algorithm_witness :
    (Cell.mk .Destroyed true false none none none .Unset 0).Resume 0 =
      .ok (.mk .Destroyed true false none none none .Unset 0, .Done) ∧
    (Cell.mk .Idle false false (some (.mk .Idle false false none none (some 2) .Unset 1))
        none (some 3) .Unset 1).Resume 0 =
      .ok (.mk .Idle false false (some (.mk .Idle false false none none (some 1) .Unset 1))
        none (some 3) .Unset 1, .Suspended) ∧
    (Cell.mk .Idle false false none (some (fun _ => false)) (some 2) .Unset 1).Resume 0 =
      .ok (.mk .Idle false false none (some (fun _ => false)) (some 2) .Unset 1,
        .Suspended) ∧
    (Cell.mk .Idle false false none (some (fun _ => true)) (some 1) .Unset 1).Resume 0 =
      .ok (.mk .Idle true false none none (some 0) .Set 1, .Done) := by
  have h := resume_follows_algorithm
  refine ⟨h.1 _ 0 rfl, ?_, ?_, ?_⟩
  · have hsub : ((if false then
        (Cell.mk .Idle false false none none (some 2) .Unset 1).setStop
        else (Cell.mk .Idle false false none none (some 2) .Unset 1)) : Cell).Resume 0 =
        .ok (.mk .Idle false false none none (some 1) .Unset 1, .Suspended) := by
      simp [Cell.Resume, Cell.resumeFrame, Cell.CanResume]
    exact h.2.1 false false _ none (some 3) .Unset 1 0 _ hsub
  · exact h.2.2.2.1 false (fun _ => false) 1 .Unset 1 0 rfl
  · have h5 := h.2.2.2.2.1 false (fun _ => true) 0 .Unset 1 0 rfl
    simpa using h5

/-- Bind of a successful `Except` computation. -/
theorem except_bind_ok {ε α β : Type} (a : α) (f : α → Except ε β) :
    (Bind.bind (Except.ok (ε := ε) a) f) = f a := rfl

/-- Helper: `Kill` succeeds on any cell whose sub-task chain is not mid-resume,
and the killed cell (and transitively its sub-tasks) end up Destroyed. -/
theorem kill_ok_aux :
    ∀ (n : Nat) (c : Cell), sizeOf c < n → c.killable = true →
      ∃ c', c.Kill = .ok c' ∧ c'.istate = .Destroyed := by
  intro n
  induction n with
  | zero => intro c h; omega
  | succ n ih =>
    intro c hlt hk
    cases c with
    | mk s d st sb r f rt rc =>
      rw [Cell.killable.eq_def] at hk
      dsimp only at hk
      simp only [Bool.and_eq_true, decide_eq_true_eq] at hk
      obtain ⟨hs, hsub⟩ := hk
      cases s with
      | Resuming => exact absurd rfl hs
      | Destroyed =>
        refine ⟨.mk .Destroyed d st sb r f rt rc, ?_, rfl⟩
        rw [Cell.Kill.eq_def]
        simp
      | Idle =>
        cases sb with
        | none =>
          refine ⟨.mk .Destroyed true st none none none
            (if rt = .Unset then .Orphaned else rt) rc, ?_, rfl⟩
          rw [Cell.Kill.eq_def]
          simp
        | some sc =>
          have hsc : sc.killable = true := by simpa using hsub
          have hsz : sizeOf sc < n := by
            have := hlt
            simp only [Cell.mk.sizeOf_spec, Option.some.sizeOf_spec] at this
            omega
          obtain ⟨sc', hkill, hscd⟩ := ih sc hsz hsc
          refine ⟨.mk .Destroyed true st (some sc') none none
            (if rt = .Unset then .Orphaned else rt) rc, ?_, rfl⟩
          rw [Cell.Kill.eq_def]
          simp [hkill]

/-- C5 (confirmed): destroying (or overwriting) the unique resumable
strong handle of a cell that is not yet Done kills the cell immediately:
the destructor path removes the logical reference (other strong handles
remain, so the count stays positive) and then `KillIfResumable` kills the
cell — the sub-task is killed (ending Destroyed), the coroutine frame is
destroyed, the ready predicate cleared, the done flag set, the internal
state becomes Destroyed, and a never-Set return slot becomes Orphaned;
every remaining strong non-resumable handle then observes
`IsDone() = true`.  Move-assignment over the handle kills the overwritten
cell identically. -/
theorem resumable_handle_drop_kills_cell (c : Cell)
    (hkill : c.killable = true) (hidle : c.istate = .Idle)
    (hrc : 2 ≤ c.refCount) :
    ∃ c', TaskDtor true true (some c) = .ok (some c') ∧
      TaskMoveAssignOld true true (some c) = .ok (some c') ∧
      c'.istate = .Destroyed ∧ c'.isDone = true ∧ c'.frame = none ∧
      c'.readyFn = none ∧
      (c.ret = .Unset → c'.ret = .Orphaned) ∧
      (∀ sc, c.sub = some sc → ∃ sc', c'.sub = some sc' ∧ sc'.istate = .Destroyed) ∧
      Task.IsDone (some c') = true := by
  cases c with
  | mk s d st sb r f rt rc =>
    replace hidle : s = .Idle := hidle
    subst hidle
    replace hrc : (2 : Int) ≤ rc := hrc
    rw [Cell.killable.eq_def] at hkill
    dsimp only at hkill
    simp only [Bool.and_eq_true, decide_eq_true_eq] at hkill
    obtain ⟨-, hsub⟩ := hkill
    have hrl : (Cell.mk .Idle d st sb r f rt rc).RemoveLogicalRef =
        .ok (.mk .Idle d st sb r f rt (rc - 1)) := by
      simp only [Cell.RemoveLogicalRef]
      rw [if_neg (by omega)]
    cases sb with
    | none =>
      have hkl : ∀ (z : Int), (Cell.mk .Idle d st none r f rt z).Kill =
          .ok (.mk .Destroyed true st none none none
            (if rt = .Unset then .Orphaned else rt) z) := by
        intro z
        rw [Cell.Kill.eq_def]
        simp
      have hrl2 : (Cell.mk .Destroyed true st none none none
          (if rt = .Unset then .Orphaned else rt) rc).RemoveLogicalRef =
          .ok (.mk .Destroyed true st none none none
            (if rt = .Unset then .Orphaned else rt) (rc - 1)) := by
        simp only [Cell.RemoveLogicalRef]
        rw [if_neg (by omega)]
      refine ⟨.mk .Destroyed true st none none none
        (if rt = .Unset then .Orphaned else rt) (rc - 1), ?_, ?_, rfl, rfl, rfl, rfl,
        ?_, ?_, rfl⟩
      · simp [TaskDtor, hrl, hkl, except_bind_ok, Except.map]
      · simp [TaskMoveAssignOld, hkl, hrl2, except_bind_ok, Except.map]
      · intro hu
        replace hu : rt = .Unset := hu
        show (if rt = .Unset then eTaskRetValState.Orphaned else rt) = .Orphaned
        rw [if_pos hu]
      · intro sc hsc
        exact Option.noConfusion hsc
    | some sc =>
      have hsc : sc.killable = true := by simpa using hsub
      obtain ⟨sc', hkillsc, hscd⟩ := kill_ok_aux (sizeOf sc + 1) sc (by omega) hsc
      have hkl : ∀ (z : Int), (Cell.mk .Idle d st (some sc) r f rt z).Kill =
          .ok (.mk .Destroyed true st (some sc') none none
            (if rt = .Unset then .Orphaned else rt) z) := by
        intro z
        rw [Cell.Kill.eq_def]
        simp [hkillsc]
      have hrl2 : (Cell.mk .Destroyed true st (some sc') none none
          (if rt = .Unset then .Orphaned else rt) rc).RemoveLogicalRef =
          .ok (.mk .Destroyed true st (some sc') none none
            (if rt = .Unset then .Orphaned else rt) (rc - 1)) := by
        simp only [Cell.RemoveLogicalRef]
        rw [if_neg (by omega)]
      refine ⟨.mk .Destroyed true st (some sc') none none
        (if rt = .Unset then .Orphaned else rt) (rc - 1), ?_, ?_, rfl, rfl, rfl, rfl,
        ?_, ?_, rfl⟩
      · simp [TaskDtor, hrl, hkl, except_bind_ok, Except.map]
      · simp [TaskMoveAssignOld, hkl, hrl2, except_bind_ok, Except.map]
      · intro hu
        replace hu : rt = .Unset := hu
        show (if rt = .Unset then eTaskRetValState.Orphaned else rt) = .Orphaned
        rw [if_pos hu]
      · intro sc0 hsc0
        replace hsc0 : some sc = some sc0 := hsc0
        cases hsc0
        exact ⟨sc', rfl, hscd⟩

/-- Witness for the C5 theorem at a concrete cell with one sub-task and
two strong references. -/
theorem resumable_handle_drop_kills_cell_witness :
    ∃ c', TaskDtor true true (some (Cell.mk .Idle false false
        (some (.mk .Idle false false none none (some 1) .Unset 1))
        none (some 2) .Unset 2)) = .ok (some c') ∧
      c'.istate = .Destroyed ∧ c'.isDone = true ∧ c'.frame = none := by
  have h := resumable_handle_drop_kills_cell
    (.mk .Idle false false (some (.mk .Idle false false none none (some 1) .Unset 1))
      none (some 2) .Unset 2)
    (by simp [Cell.killable]) rfl (by norm_num [Cell.refCount])
  obtain ⟨c', h1, -, h3, h4, h5, -⟩ := h
  exact ⟨c', h1, h3, h4, h5⟩

end SquidTasks
